import Mathlib

/-!
# Spell-Binder: the `1752710000_create_collections` migration step

A shallow embedding of `pocketbase/pb_migrations/1752710000_create_collections.go`.

The file registers one migration step: a forward closure that saves the three
collections `collections`, `cards`, `sync_status` (in that order) and a backward
closure that looks each of them up with `FindCollectionByNameOrId` and deletes
what it finds, in the order `sync_status`, `cards`, `collections`.

The storage backend (`daos.Dao`) is a library outside the repository.  The two
closures are therefore embedded over an arbitrary backend `Dao σ` (explicit state
passing over a state type `σ`).  Statements about control flow are proved for every
backend.  Statements about the schema state are proved for every backend that meets
the premises they name (`ReadOnlyLookup`, `SoundLookup`, ...), over an observation of
the live collections of a backend state.  `modelDao` is a reference backend written
from the contract of section 4.2 of the specification; it meets the premises, gives
the concrete runs, and stands for the backend in the statements that fix one (a save
that fails exactly when the name is live).
-/

namespace Migrations

/-! ## Data model: `models.Collection` as far as the JSON payloads populate it -/

/-- The `options` object of a schema field (absent keys are `none` / `[]`). -/
structure FieldOptions where
  min : Option Nat := none
  max : Option Nat := none
  values : List String := []
  maxSelect : Option Nat := none
  maxSize : Option Nat := none
  mimeTypes : List String := []
deriving DecidableEq, Repr

/-- One entry of the `schema` array of a collection. -/
structure SchemaField where
  id : String
  name : String
  type : String
  system : Bool
  required : Bool
  options : FieldOptions := {}
deriving DecidableEq, Repr

/-- A collection as described by the JSON payloads of the migration. -/
structure Collection where
  id : String
  name : String
  type : String
  system : Bool
  schema : List SchemaField
  indexes : List String
deriving DecidableEq, Repr

/-- Go `error` values, as far as the step and its backend distinguish them. -/
inductive Err where
  | notFound
  | nameInUse
  | backend (msg : String)
deriving DecidableEq, Repr

/-! ## The three descriptors built by the forward closure -/

/-- The payload unmarshalled into `collectionsCollection` (source lines 18-96). -/
def collectionsCollection : Collection :=
  { id := "collections_id"
    name := "collections"
    type := "base"
    system := false
    schema := [
      { id := "user_id_field", name := "user_id", type := "text", system := false,
        required := true, options := { min := some 1, max := some 255 } },
      { id := "card_id_field", name := "card_id", type := "text", system := false,
        required := true, options := { min := some 1, max := some 255 } },
      { id := "quantity_field", name := "quantity", type := "number", system := false,
        required := true, options := { min := some 1 } },
      { id := "condition_field", name := "condition", type := "select", system := false,
        required := true, options := { values := ["NM", "LP", "MP", "HP", "DMG"] } },
      { id := "foil_field", name := "foil", type := "bool", system := false,
        required := false },
      { id := "acquired_date_field", name := "acquired_date", type := "date", system := false,
        required := false },
      { id := "notes_field", name := "notes", type := "text", system := false,
        required := false, options := { max := some 1000 } } ]
    indexes := [
      "CREATE INDEX idx_collections_user_id ON collections (user_id)",
      "CREATE INDEX idx_collections_card_id ON collections (card_id)",
      "CREATE INDEX idx_collections_user_card ON collections (user_id, card_id)" ] }

/-- The payload unmarshalled into `cardsCollection` (source lines 104-230). -/
def cardsCollection : Collection :=
  { id := "cards_id"
    name := "cards"
    type := "base"
    system := false
    schema := [
      { id := "scryfall_id_field", name := "scryfall_id", type := "text", system := false,
        required := true, options := { min := some 1, max := some 255 } },
      { id := "name_field", name := "name", type := "text", system := false,
        required := true, options := { min := some 1, max := some 255 } },
      { id := "set_code_field", name := "set_code", type := "text", system := false,
        required := true, options := { min := some 1, max := some 10 } },
      { id := "set_name_field", name := "set_name", type := "text", system := false,
        required := true, options := { min := some 1, max := some 255 } },
      { id := "rarity_field", name := "rarity", type := "select", system := false,
        required := true,
        options := { values := ["common", "uncommon", "rare", "mythic", "special", "bonus"] } },
      { id := "mana_cost_field", name := "mana_cost", type := "text", system := false,
        required := false, options := { max := some 50 } },
      { id := "type_line_field", name := "type_line", type := "text", system := false,
        required := true, options := { min := some 1, max := some 255 } },
      { id := "colors_field", name := "colors", type := "json", system := false,
        required := false },
      { id := "image_file_field", name := "image_file", type := "file", system := false,
        required := false,
        options := { maxSelect := some 1, maxSize := some 5242880,
                     mimeTypes := ["image/jpeg", "image/png", "image/webp"] } },
      { id := "price_usd_field", name := "price_usd", type := "number", system := false,
        required := false, options := { min := some 0 } },
      { id := "last_updated_field", name := "last_updated", type := "date", system := false,
        required := false } ]
    indexes := [
      "CREATE UNIQUE INDEX idx_cards_scryfall_id ON cards (scryfall_id)",
      "CREATE INDEX idx_cards_name ON cards (name)",
      "CREATE INDEX idx_cards_set_code ON cards (set_code)",
      "CREATE INDEX idx_cards_type_line ON cards (type_line)",
      "CREATE INDEX idx_cards_name_search ON cards (name COLLATE NOCASE)",
      "CREATE INDEX idx_cards_set_name ON cards (set_name)" ] }

/-- The payload unmarshalled into `syncStatusCollection` (source lines 238-296). -/
def syncStatusCollection : Collection :=
  { id := "sync_status_id"
    name := "sync_status"
    type := "base"
    system := false
    schema := [
      { id := "data_type_field", name := "data_type", type := "select", system := false,
        required := true, options := { values := ["cards", "sets", "prices"] } },
      { id := "last_sync_field", name := "last_sync", type := "date", system := false,
        required := false },
      { id := "status_field", name := "status", type := "select", system := false,
        required := true, options := { values := ["success", "failed", "in_progress"] } },
      { id := "records_processed_field", name := "records_processed", type := "number",
        system := false, required := false, options := { min := some 0 } },
      { id := "error_message_field", name := "error_message", type := "text", system := false,
        required := false, options := { max := some 1000 } } ]
    indexes := [
      "CREATE UNIQUE INDEX idx_sync_status_data_type ON sync_status (data_type)",
      "CREATE INDEX idx_sync_status_last_sync ON sync_status (last_sync)" ] }

/-! ## The storage backend as the closures use it -/

/-- The three `daos.Dao` methods the step calls, over a backend state `σ`.  Every method
returns the state it leaves behind; `FindCollectionByNameOrId` returns the Go pair
`(*models.Collection, error)`. -/
structure Dao (σ : Type) where
  SaveCollection : Collection → σ → Option Err × σ
  FindCollectionByNameOrId : String → σ → (Option Collection × Option Err) × σ
  DeleteCollection : Collection → σ → Option Err × σ

/-! ## The registered step (source lines 13-329) -/

/-- The forward closure: three saves, each returning its error at once. -/
def forward {σ : Type} (dao : Dao σ) (db : σ) : Option Err × σ :=
  match dao.SaveCollection collectionsCollection db with
  | (some err, db1) => (some err, db1)
  | (none, db1) =>
    match dao.SaveCollection cardsCollection db1 with
    | (some err, db2) => (some err, db2)
    | (none, db2) =>
      match dao.SaveCollection syncStatusCollection db2 with
      | (some err, db3) => (some err, db3)
      | (none, db3) => (none, db3)

/-- The backward closure: three lookups whose error is discarded (`collection, _ :=`),
each followed by a delete when the lookup returned a non-nil collection. -/
def backward {σ : Type} (dao : Dao σ) (db : σ) : Option Err × σ :=
  match dao.FindCollectionByNameOrId "sync_status" db with
  | ((collection1, _), db1) =>
    match (match collection1 with
           | some c => dao.DeleteCollection c db1
           | none => (none, db1)) with
    | (some err, db2) => (some err, db2)
    | (none, db2) =>
      match dao.FindCollectionByNameOrId "cards" db2 with
      | ((collection2, _), db3) =>
        match (match collection2 with
               | some c => dao.DeleteCollection c db3
               | none => (none, db3)) with
        | (some err, db4) => (some err, db4)
        | (none, db4) =>
          match dao.FindCollectionByNameOrId "collections" db4 with
          | ((collection3, _), db5) =>
            match (match collection3 with
                   | some c => dao.DeleteCollection c db5
                   | none => (none, db5)) with
            | (some err, db6) => (some err, db6)
            | (none, db6) => (none, db6)

/-! ## Observing the storage operations a run issues -/

/-- One storage operation together with its outcome. -/
inductive Event where
  | save (c : Collection) (err : Option Err)
  | find (nameOrId : String) (found : Option Collection) (err : Option Err)
  | delete (c : Collection) (err : Option Err)
deriving DecidableEq, Repr

/-- The backend `dao` with a log: every call is forwarded to `dao` unchanged, and the
call, its outcome and the state it leaves are appended to the log carried next to
the state. -/
def traced {σ : Type} (dao : Dao σ) : Dao (σ × List (Event × σ)) where
  SaveCollection c s :=
    match dao.SaveCollection c s.1 with
    | (err, db) => (err, (db, s.2 ++ [(Event.save c err, db)]))
  FindCollectionByNameOrId k s :=
    match dao.FindCollectionByNameOrId k s.1 with
    | ((found, err), db) => ((found, err), (db, s.2 ++ [(Event.find k found err, db)]))
  DeleteCollection c s :=
    match dao.DeleteCollection c s.1 with
    | (err, db) => (err, (db, s.2 ++ [(Event.delete c err, db)]))

/-- The log of the forward closure run on `db`, oldest entry first. -/
def forwardRun {σ : Type} (dao : Dao σ) (db : σ) : List (Event × σ) :=
  (forward (traced dao) (db, [])).2.2

/-- The log of the backward closure run on `db`, oldest entry first. -/
def backwardRun {σ : Type} (dao : Dao σ) (db : σ) : List (Event × σ) :=
  (backward (traced dao) (db, [])).2.2

/-- The operations issued by the forward closure on `db`, oldest first. -/
def forwardTrace {σ : Type} (dao : Dao σ) (db : σ) : List Event :=
  (forwardRun dao db).map Prod.fst

/-- The operations issued by the backward closure on `db`, oldest first. -/
def backwardTrace {σ : Type} (dao : Dao σ) (db : σ) : List Event :=
  (backwardRun dao db).map Prod.fst

/-- The states the forward closure passes through: the state after each operation. -/
def forwardStates {σ : Type} (dao : Dao σ) (db : σ) : List σ :=
  (forwardRun dao db).map Prod.snd

/-- The states the backward closure passes through: the state after each operation. -/
def backwardStates {σ : Type} (dao : Dao σ) (db : σ) : List σ :=
  (backwardRun dao db).map Prod.snd

/-- The events of one backward block: the lookup of `k` with outcome `(found, err)`,
followed by the delete of the collection found, if any, with outcome `derr`. -/
def dropBlock (k : String) (found : Option Collection) (err derr : Option Err) : List Event :=
  Event.find k found err ::
    (match found with
     | some c => [Event.delete c derr]
     | none => [])

/-- Whether an event is anything but a delete that returned an error. -/
def Event.deleteOk : Event → Bool
  | Event.delete _ (some _) => false
  | _ => true

/-- Go's `if err != nil { return err }` between a statement and the rest of the body. -/
def andThen {σ : Type} (r : Option Err × σ) (rest : σ → Option Err × σ) : Option Err × σ :=
  match r with
  | (some err, s) => (some err, s)
  | (none, s) => rest s

/-- One block of the backward closure: the lookup of `k`, then the delete of what was
found. -/
def dropStep {σ : Type} (dao : Dao σ) (k : String) (db : σ) : Option Err × σ :=
  match dao.FindCollectionByNameOrId k db with
  | ((collection, _), db1) =>
    match collection with
    | some c => dao.DeleteCollection c db1
    | none => (none, db1)

/-- The log entries one block of the backward closure produces on `db`. -/
def dropRun {σ : Type} (dao : Dao σ) (k : String) (db : σ) : List (Event × σ) :=
  (Event.find k (dao.FindCollectionByNameOrId k db).1.1 (dao.FindCollectionByNameOrId k db).1.2,
      (dao.FindCollectionByNameOrId k db).2) ::
    (match (dao.FindCollectionByNameOrId k db).1.1 with
     | some c =>
       [(Event.delete c (dao.DeleteCollection c (dao.FindCollectionByNameOrId k db).2).1,
          (dao.DeleteCollection c (dao.FindCollectionByNameOrId k db).2).2)]
     | none => [])

/-- The log entry one save of the forward closure produces on `db`. -/
def saveRun {σ : Type} (dao : Dao σ) (c : Collection) (db : σ) : List (Event × σ) :=
  [(Event.save c (dao.SaveCollection c db).1, (dao.SaveCollection c db).2)]

/-! ## Reference backend over the schema state -/

/-- The schema state: the live collections, oldest first. -/
abbrev DB := List Collection

/-- The string with its ASCII capital letters replaced by small ones. -/
def lowerAscii (s : String) : String :=
  String.mk (s.data.map Char.toLower)

/-- Modelled from the spec: the match performed by the lookup `FindCollectionByNameOrId`
of the storage library `daos.Dao`, which is absent from the repository (the spec only
names lookups by id and by name): the id equals the string, or the name equals it up
to letter case, the library comparing lower-cased names. -/
def matchesNameOrId (nameOrId : String) (c : Collection) : Bool :=
  c.id == nameOrId || lowerAscii c.name == lowerAscii nameOrId

/-- A storage operation, before it is run. -/
inductive Op where
  | save (c : Collection)
  | find (nameOrId : String)
  | delete (c : Collection)
deriving DecidableEq, Repr

/-- A failure schedule: the error, if any, with which the storage layer makes an
operation fail on a given state (storage failure, constraint violation). -/
abbrev Faults := Op → DB → Option Err

/-- The failure schedule of a storage layer that never fails on its own. -/
def noFaults : Faults := fun _ _ => none

/-- Modelled from the spec: the storage backend `daos.Dao` (an external library, absent
from the repository), following the contract of section 4.2.  `SaveCollection` fails
when the name is already in use by a live collection and otherwise adds the descriptor;
`FindCollectionByNameOrId` returns the oldest live collection that matches the argument
(`matchesNameOrId`), and `notFound` when there is none; `DeleteCollection` removes the given
collection and fails with `notFound` when it is not live.  An operation that the
failure schedule makes fail returns that error and leaves the state as it was. -/
def modelDao (faults : Faults) : Dao DB where
  SaveCollection c db :=
    match faults (Op.save c) db with
    | some e => (some e, db)
    | none =>
      if c.name ∈ db.map Collection.name then (some Err.nameInUse, db)
      else (none, db ++ [c])
  FindCollectionByNameOrId k db :=
    match faults (Op.find k) db with
    | some e => ((none, some e), db)
    | none =>
      match db.find? (matchesNameOrId k) with
      | some c => ((some c, none), db)
      | none => ((none, some Err.notFound), db)
  DeleteCollection c db :=
    match faults (Op.delete c) db with
    | some e => (some e, db)
    | none =>
      if c ∈ db then (none, db.filter (fun x => decide (x ≠ c)))
      else (some Err.notFound, db)

/-- The three strings the backward closure looks up, in lookup order. -/
def droppedKeys : List String := ["sync_status", "cards", "collections"]

/-- A live collection that some lookup of the backward closure can return: its id is
one of the three strings, or its name is one of them up to letter case. -/
def matchesDropped (c : Collection) : Bool :=
  droppedKeys.any (fun k => matchesNameOrId k c)

/-- The names of the live collections. -/
def names (db : DB) : List String :=
  db.map Collection.name

/-- A collection created outside this step, with the given id and name. -/
def legacy (id name : String) : Collection :=
  { id := id, name := name, type := "base", system := false, schema := [], indexes := [] }

/-- A failure schedule in which every lookup of `sync_status` fails with a storage error. -/
def lookupFails : Faults := fun op _ =>
  match op with
  | Op.find "sync_status" => some (Err.backend "storage unavailable")
  | _ => none

/-- A failure schedule in which every delete fails with a storage error. -/
def deleteFails : Faults := fun op _ =>
  match op with
  | Op.delete _ => some (Err.backend "storage unavailable")
  | _ => none

/-- Each of the three strings the backward closure looks up matches at most one of the
live collections `db`, by id or by name up to letter case. -/
def UniqueMatches (db : DB) : Prop :=
  ∀ k ∈ droppedKeys, ∀ a ∈ db, ∀ b ∈ db,
    matchesNameOrId k a = true → matchesNameOrId k b = true → a = b

instance (db : DB) : Decidable (UniqueMatches db) := by
  unfold UniqueMatches
  infer_instance

/-- The state left by saving the collections `cs` one after the other, from `db`. -/
def saveAll {σ : Type} (dao : Dao σ) (cs : List Collection) (db : σ) : σ :=
  cs.foldl (fun s c => (dao.SaveCollection c s).2) db

/-! ## Premises on the storage library

The library is absent from the repository.  A statement about the schema state that
is to hold of the step over every backend names the behaviour it needs from the
backend as one of the premises below, over an observation `live` of the live
collections of a backend state.  Each premise is about the operations the step
issues only: lookups of the three strings, saves of the three descriptors, deletes of
collections that match one of the three strings. -/

/-- Modelled from the spec: premise on the absent library, a lookup of one of the three
strings leaves the state as it was. -/
def ReadOnlyLookup {σ : Type} (dao : Dao σ) : Prop :=
  ∀ k ∈ droppedKeys, ∀ s, (dao.FindCollectionByNameOrId k s).2 = s

/-- Modelled from the spec: premise on the absent library, a collection returned by a
lookup of one of the three strings is live and matches the string looked up. -/
def SoundLookup {σ : Type} (dao : Dao σ) (live : σ → List Collection) : Prop :=
  ∀ k ∈ droppedKeys, ∀ s c, (dao.FindCollectionByNameOrId k s).1.1 = some c →
    c ∈ live s ∧ matchesNameOrId k c = true

/-- Modelled from the spec: premise on the absent library, a lookup of one of the three
strings returns nil only when no live collection matches the string (in particular
the lookup itself does not fail). -/
def CompleteLookup {σ : Type} (dao : Dao σ) (live : σ → List Collection) : Prop :=
  ∀ k ∈ droppedKeys, ∀ s, (dao.FindCollectionByNameOrId k s).1.1 = none →
    ∀ c ∈ live s, matchesNameOrId k c = false

/-- Modelled from the spec: premise on the absent library, a save of one of the three
descriptors that returns no error adds the descriptor and leaves every other live
collection as it was. -/
def SaveAdds {σ : Type} (dao : Dao σ) (live : σ → List Collection) : Prop :=
  ∀ c ∈ [collectionsCollection, cardsCollection, syncStatusCollection], ∀ s,
    (dao.SaveCollection c s).1 = none →
      ∀ x, x ∈ live (dao.SaveCollection c s).2 ↔ (x ∈ live s ∨ x = c)

/-- Modelled from the spec: premise on the absent library, a delete of a collection
matching one of the three strings that returns no error removes the collection given
and leaves every other live collection as it was. -/
def DeleteRemoves {σ : Type} (dao : Dao σ) (live : σ → List Collection) : Prop :=
  ∀ c s, matchesDropped c = true → (dao.DeleteCollection c s).1 = none →
    ∀ x, x ∈ live (dao.DeleteCollection c s).2 ↔ (x ∈ live s ∧ x ≠ c)

/-- Modelled from the spec: premise on the absent library, the delete of a live
collection matching one of the three strings returns no error. -/
def DeleteSucceeds {σ : Type} (dao : Dao σ) (live : σ → List Collection) : Prop :=
  ∀ c s, matchesDropped c = true → c ∈ live s → (dao.DeleteCollection c s).1 = none

/-- Splits a character list at every occurrence of `sep`. -/
def splitOnChar (sep : Char) : List Char → List (List Char)
  | [] => [[]]
  | c :: cs =>
    if c = sep then [] :: splitOnChar sep cs
    else
      match splitOnChar sep cs with
      | [] => [[c]]
      | w :: ws => (c :: w) :: ws

/-- The blank-separated words of a character list. -/
def wordsOf (cs : List Char) : List String :=
  ((splitOnChar ' ' cs).filter (fun w => !w.isEmpty)).map String.mk

/-- The word that follows the keyword `ON` in a word list. -/
def wordAfterOn : List String → Option String
  | [] => none
  | w :: ws => if w = "ON" then ws.head? else wordAfterOn ws

/-- The collection an index definition is declared on: the word after `ON` in the
part of the statement that precedes the column list. -/
def indexTable (idx : String) : Option String :=
  wordAfterOn (wordsOf (idx.data.takeWhile (fun c => c != '(')))

/-- The columns an index definition names: the comma-separated entries between the
parentheses, each reduced to its first word (dropping a `COLLATE` clause). -/
def indexColumns (idx : String) : List String :=
  let inner := ((idx.data.dropWhile (fun c => c != '(')).drop 1).takeWhile (fun c => c != ')')
  (splitOnChar ',' inner).filterMap (fun entry => (wordsOf entry).head?)

/-- The field names a descriptor declares. -/
def fieldNames (c : Collection) : List String :=
  c.schema.map SchemaField.name

/-- The descriptor invariant: field names are pairwise distinct, and every index
definition is declared on the descriptor's own collection name, names at least one
column, and names only columns that are declared fields. -/
def DescriptorInvariant (c : Collection) : Prop :=
  (fieldNames c).Nodup ∧
  ∀ idx ∈ c.indexes,
    indexTable idx = some c.name ∧ indexColumns idx ≠ [] ∧
      ∀ col ∈ indexColumns idx, col ∈ fieldNames c

instance (c : Collection) : Decidable (DescriptorInvariant c) := by
  unfold DescriptorInvariant
  infer_instance

/-! ## The closures as chains of blocks -/

theorem forward_eq {σ : Type} (dao : Dao σ) (db : σ) :
    forward dao db =
      andThen (dao.SaveCollection collectionsCollection db) (fun db1 =>
        andThen (dao.SaveCollection cardsCollection db1) (fun db2 =>
          andThen (dao.SaveCollection syncStatusCollection db2) (fun db3 => (none, db3)))) :=
  rfl

theorem backward_eq {σ : Type} (dao : Dao σ) (db : σ) :
    backward dao db =
      andThen (dropStep dao "sync_status" db) (fun db2 =>
        andThen (dropStep dao "cards" db2) (fun db4 =>
          andThen (dropStep dao "collections" db4) (fun db6 => (none, db6)))) :=
  rfl

theorem save_traced {σ : Type} (dao : Dao σ) (c : Collection) (db : σ)
    (log : List (Event × σ)) :
    (traced dao).SaveCollection c (db, log) =
      ((dao.SaveCollection c db).1, ((dao.SaveCollection c db).2, log ++ saveRun dao c db)) :=
  rfl

theorem dropStep_traced {σ : Type} (dao : Dao σ) (k : String) (db : σ)
    (log : List (Event × σ)) :
    dropStep (traced dao) k (db, log) =
      ((dropStep dao k db).1, ((dropStep dao k db).2, log ++ dropRun dao k db)) := by
  obtain ⟨sv, fd, dl⟩ := dao
  simp only [dropStep, dropRun, traced]
  generalize fd k db = r
  rcases r with ⟨⟨_ | c, e⟩, db1⟩ <;> simp

/-- The backward closure over the logging backend: same result, same final state, and
a log made of the blocks that were reached. -/
theorem backward_traced {σ : Type} (dao : Dao σ) (db : σ) (log : List (Event × σ)) :
    backward (traced dao) (db, log) =
      ((backward dao db).1, ((backward dao db).2,
        log ++ (dropRun dao "sync_status" db ++
          (if (dropStep dao "sync_status" db).1 = none then
            dropRun dao "cards" (dropStep dao "sync_status" db).2 ++
              (if (dropStep dao "cards" (dropStep dao "sync_status" db).2).1 = none then
                dropRun dao "collections"
                  (dropStep dao "cards" (dropStep dao "sync_status" db).2).2
               else [])
           else [])))) := by
  rw [backward_eq, backward_eq, dropStep_traced]
  rcases h1 : dropStep dao "sync_status" db with ⟨_ | e1, s1⟩
  · simp only [andThen, dropStep_traced]
    rcases h2 : dropStep dao "cards" s1 with ⟨_ | e2, s2⟩
    · simp only [andThen, dropStep_traced]
      rcases h3 : dropStep dao "collections" s2 with ⟨_ | e3, s3⟩ <;> simp [andThen]
    · simp [andThen]
  · simp [andThen]

/-- The forward closure over the logging backend: same result, same final state, and
a log made of the saves that were reached. -/
theorem forward_traced {σ : Type} (dao : Dao σ) (db : σ) (log : List (Event × σ)) :
    forward (traced dao) (db, log) =
      ((forward dao db).1, ((forward dao db).2,
        log ++ (saveRun dao collectionsCollection db ++
          (if (dao.SaveCollection collectionsCollection db).1 = none then
            saveRun dao cardsCollection (dao.SaveCollection collectionsCollection db).2 ++
              (if (dao.SaveCollection cardsCollection
                    (dao.SaveCollection collectionsCollection db).2).1 = none then
                saveRun dao syncStatusCollection
                  (dao.SaveCollection cardsCollection
                    (dao.SaveCollection collectionsCollection db).2).2
               else [])
           else [])))) := by
  rw [forward_eq, forward_eq, save_traced]
  rcases h1 : dao.SaveCollection collectionsCollection db with ⟨_ | e1, s1⟩
  · simp only [andThen, save_traced]
    rcases h2 : dao.SaveCollection cardsCollection s1 with ⟨_ | e2, s2⟩
    · simp only [andThen, save_traced]
      rcases h3 : dao.SaveCollection syncStatusCollection s2 with ⟨_ | e3, s3⟩ <;>
        simp [andThen]
    · simp [andThen]
  · simp [andThen]

theorem backwardRun_eq {σ : Type} (dao : Dao σ) (db : σ) :
    backwardRun dao db =
      dropRun dao "sync_status" db ++
        (if (dropStep dao "sync_status" db).1 = none then
          dropRun dao "cards" (dropStep dao "sync_status" db).2 ++
            (if (dropStep dao "cards" (dropStep dao "sync_status" db).2).1 = none then
              dropRun dao "collections"
                (dropStep dao "cards" (dropStep dao "sync_status" db).2).2
             else [])
         else []) := by
  simp [backwardRun, backward_traced]

theorem forwardRun_eq {σ : Type} (dao : Dao σ) (db : σ) :
    forwardRun dao db =
      saveRun dao collectionsCollection db ++
        (if (dao.SaveCollection collectionsCollection db).1 = none then
          saveRun dao cardsCollection (dao.SaveCollection collectionsCollection db).2 ++
            (if (dao.SaveCollection cardsCollection
                  (dao.SaveCollection collectionsCollection db).2).1 = none then
              saveRun dao syncStatusCollection
                (dao.SaveCollection cardsCollection
                  (dao.SaveCollection collectionsCollection db).2).2
             else [])
         else []) := by
  simp [forwardRun, forward_traced]

/-- The events of a block that returned no error. -/
theorem dropRun_ok {σ : Type} (dao : Dao σ) (k : String) (db : σ)
    (h : (dropStep dao k db).1 = none) :
    (dropRun dao k db).map Prod.fst =
      dropBlock k (dao.FindCollectionByNameOrId k db).1.1
        (dao.FindCollectionByNameOrId k db).1.2 none := by
  obtain ⟨sv, fd, dl⟩ := dao
  simp only [dropStep, dropRun, dropBlock] at *
  generalize fd k db = r at *
  rcases r with ⟨⟨_ | c, e⟩, db1⟩
  · simp
  · simp at h ⊢
    exact h

/-- The events of a block that returned an error: a lookup that found something,
then the failed delete. -/
theorem dropRun_err {σ : Type} (dao : Dao σ) (k : String) (db : σ) (e : Err)
    (h : (dropStep dao k db).1 = some e) :
    ∃ c fe, (dropRun dao k db).map Prod.fst =
      [Event.find k (some c) fe, Event.delete c (some e)] := by
  obtain ⟨sv, fd, dl⟩ := dao
  simp only [dropStep, dropRun] at *
  generalize fd k db = r at *
  rcases r with ⟨⟨_ | c, fe⟩, db1⟩
  · simp at h
  · refine ⟨c, fe, ?_⟩
    simp at h ⊢
    exact h

theorem andThen_none {σ : Type} (r : Option Err × σ) (rest : σ → Option Err × σ)
    (h : r.1 = none) : andThen r rest = rest r.2 := by
  rcases r with ⟨_ | e, s⟩
  · rfl
  · simp at h

theorem andThen_some {σ : Type} (r : Option Err × σ) (rest : σ → Option Err × σ) (e : Err)
    (h : r.1 = some e) : andThen r rest = (some e, r.2) := by
  rcases r with ⟨_ | e2, s⟩
  · simp at h
  · simp at h
    subst h
    rfl

/-- The shape of every backward run: either all three blocks ran without error, or the
run stopped at the first failed delete, which directly follows the lookup that
returned its argument. -/
theorem backward_run {σ : Type} (dao : Dao σ) (db : σ) :
    (∃ r1 e1 r2 e2 r3 e3, (backward dao db).1 = none ∧
      backwardTrace dao db =
        dropBlock "sync_status" r1 e1 none ++ dropBlock "cards" r2 e2 none ++
          dropBlock "collections" r3 e3 none) ∨
    (∃ c fe e, (backward dao db).1 = some e ∧
      backwardTrace dao db =
        [Event.find "sync_status" (some c) fe, Event.delete c (some e)]) ∨
    (∃ r1 e1 c fe e, (backward dao db).1 = some e ∧
      backwardTrace dao db =
        dropBlock "sync_status" r1 e1 none ++
          [Event.find "cards" (some c) fe, Event.delete c (some e)]) ∨
    (∃ r1 e1 r2 e2 c fe e, (backward dao db).1 = some e ∧
      backwardTrace dao db =
        dropBlock "sync_status" r1 e1 none ++ dropBlock "cards" r2 e2 none ++
          [Event.find "collections" (some c) fe, Event.delete c (some e)]) := by
  simp only [backwardTrace, backwardRun_eq, backward_eq]
  rcases h1 : (dropStep dao "sync_status" db).1 with _ | e1
  · have t1 := dropRun_ok dao "sync_status" db h1
    rw [andThen_none _ _ h1]
    rcases h2 : (dropStep dao "cards" (dropStep dao "sync_status" db).2).1 with _ | e2
    · have t2 := dropRun_ok dao "cards" _ h2
      rw [andThen_none _ _ h2]
      rcases h3 : (dropStep dao "collections"
          (dropStep dao "cards" (dropStep dao "sync_status" db).2).2).1 with _ | e3
      · have t3 := dropRun_ok dao "collections" _ h3
        rw [andThen_none _ _ h3]
        simp only [↓reduceIte, List.map_append, t1, t2, t3]
        exact Or.inl ⟨_, _, _, _, _, _, trivial,
          (List.append_assoc _ _ _).symm⟩
      · obtain ⟨c, fe, t3⟩ := dropRun_err dao "collections" _ e3 h3
        rw [andThen_some _ _ e3 h3]
        simp only [↓reduceIte, List.map_append, t1, t2, t3]
        exact Or.inr (Or.inr (Or.inr
          ⟨_, _, _, _, c, fe, e3, rfl,
            (List.append_assoc _ _ _).symm⟩))
    · obtain ⟨c, fe, t2⟩ := dropRun_err dao "cards" _ e2 h2
      rw [andThen_some _ _ e2 h2]
      simp only [↓reduceIte, List.map_append, t1, t2, reduceCtorEq, List.append_nil]
      exact Or.inr (Or.inr (Or.inl ⟨_, _, c, fe, e2, rfl, rfl⟩))
  · obtain ⟨c, fe, t1⟩ := dropRun_err dao "sync_status" _ e1 h1
    rw [andThen_some _ _ e1 h1]
    simp only [↓reduceIte, List.map_append, t1, reduceCtorEq, List.append_nil]
    exact Or.inr (Or.inl ⟨c, fe, e1, rfl, rfl⟩)

theorem deleteOk_of_mem_dropBlock (k : String) (r : Option Collection) (e : Option Err)
    (ev : Event) (h : ev ∈ dropBlock k r e none) : ev.deleteOk = true := by
  rcases r with _ | c
  · simp [dropBlock] at h
    subst h
    rfl
  · simp [dropBlock] at h
    rcases h with h | h <;> subst h <;> rfl

/-- C5 (as stated, refuted): on a backend where the lookup of `sync_status` fails with
a storage error, which is not the not-found error, the backward closure goes on to issue
three more storage operations and returns no error. -/
theorem backward_ignores_failed_lookup :
    Err.backend "storage unavailable" ≠ Err.notFound ∧
    backwardTrace (modelDao lookupFails) [cardsCollection] =
      [Event.find "sync_status" none (some (Err.backend "storage unavailable")),
        Event.find "cards" (some cardsCollection) none,
        Event.delete cardsCollection none,
        Event.find "collections" none (some Err.notFound)] ∧
    (backward (modelDao lookupFails) [cardsCollection]).1 = none := by
  decide

/-- C5 (amended): a failed delete makes the backward closure fail at once.  For every
backend and state, a delete that returns an error is the last operation of the run,
no earlier delete failed, and the closure returns that error; conversely an error
returned by the closure is the error of a delete it issued.  (The error of a lookup
is never returned.) -/
theorem backward_stops_at_failed_delete {σ : Type} (dao : Dao σ) (db : σ) :
    (∀ c e, Event.delete c (some e) ∈ backwardTrace dao db →
      (backward dao db).1 = some e ∧
      ∃ done, backwardTrace dao db = done ++ [Event.delete c (some e)] ∧
        ∀ ev ∈ done, ev.deleteOk = true) ∧
    (∀ e, (backward dao db).1 = some e →
      ∃ c, Event.delete c (some e) ∈ backwardTrace dao db) := by
  have hb := deleteOk_of_mem_dropBlock
  rcases backward_run dao db with ⟨r1, e1, r2, e2, r3, e3, hr, ht⟩ | ⟨c0, fe, e0, hr, ht⟩ |
    ⟨r1, e1, c0, fe, e0, hr, ht⟩ | ⟨r1, e1, r2, e2, c0, fe, e0, hr, ht⟩
  · constructor
    · intro c e hmem
      rw [ht] at hmem
      simp only [List.mem_append] at hmem
      rcases hmem with (h | h) | h <;> have := hb _ _ _ _ h <;> simp [Event.deleteOk] at this
    · intro e he
      rw [hr] at he
      simp at he
  · constructor
    · intro c e hmem
      rw [ht] at hmem
      simp at hmem
      obtain ⟨rfl, rfl⟩ := hmem
      refine ⟨hr, [Event.find "sync_status" (some c) fe], by rw [ht]; rfl, ?_⟩
      intro ev hev
      simp at hev
      subst hev
      rfl
    · intro e he
      rw [hr] at he
      simp at he
      subst he
      exact ⟨c0, by rw [ht]; simp⟩
  · constructor
    · intro c e hmem
      rw [ht] at hmem
      simp only [List.mem_append] at hmem
      rcases hmem with h | h
      · have := hb _ _ _ _ h
        simp [Event.deleteOk] at this
      · simp at h
        obtain ⟨rfl, rfl⟩ := h
        refine ⟨hr, dropBlock "sync_status" r1 e1 none ++ [Event.find "cards" (some c) fe],
          by rw [ht]; simp, ?_⟩
        intro ev hev
        simp only [List.mem_append] at hev
        rcases hev with h | h
        · exact hb _ _ _ _ h
        · simp at h
          subst h
          rfl
    · intro e he
      rw [hr] at he
      simp at he
      subst he
      exact ⟨c0, by rw [ht]; simp⟩
  · constructor
    · intro c e hmem
      rw [ht] at hmem
      simp only [List.mem_append] at hmem
      rcases hmem with (h | h) | h
      · have := hb _ _ _ _ h
        simp [Event.deleteOk] at this
      · have := hb _ _ _ _ h
        simp [Event.deleteOk] at this
      · simp at h
        obtain ⟨rfl, rfl⟩ := h
        refine ⟨hr, dropBlock "sync_status" r1 e1 none ++ dropBlock "cards" r2 e2 none ++
          [Event.find "collections" (some c) fe], by rw [ht]; simp, ?_⟩
        intro ev hev
        simp only [List.mem_append] at hev
        rcases hev with (h | h) | h
        · exact hb _ _ _ _ h
        · exact hb _ _ _ _ h
        · simp at h
          subst h
          rfl
    · intro e he
      rw [hr] at he
      simp at he
      subst he
      exact ⟨c0, by rw [ht]; simp⟩

/-- The amended C5 at a concrete run: the delete of `sync_status` fails, the closure
returns its error and stops there. -/
theorem backward_stops_at_failed_delete_witness :
    Event.delete syncStatusCollection (some (Err.backend "storage unavailable")) ∈
      backwardTrace (modelDao deleteFails) [cardsCollection, syncStatusCollection] ∧
    ((backward (modelDao deleteFails) [cardsCollection, syncStatusCollection]).1 =
        some (Err.backend "storage unavailable") ∧
      ∃ done, backwardTrace (modelDao deleteFails) [cardsCollection, syncStatusCollection] =
          done ++ [Event.delete syncStatusCollection (some (Err.backend "storage unavailable"))] ∧
        ∀ ev ∈ done, ev.deleteOk = true) :=
  ⟨by decide,
    (backward_stops_at_failed_delete (modelDao deleteFails)
      [cardsCollection, syncStatusCollection]).1 syncStatusCollection
      (Err.backend "storage unavailable") (by decide)⟩

/-! ## The reference backend, operation by operation -/

theorem model_save_cases (faults : Faults) (c : Collection) (db : DB) :
    ((modelDao faults).SaveCollection c db = (none, db ++ [c]) ∧ c.name ∉ names db) ∨
    (∃ e, (modelDao faults).SaveCollection c db = (some e, db)) := by
  simp only [modelDao, names]
  rcases faults (Op.save c) db with _ | e
  · by_cases h : c.name ∈ db.map Collection.name
    · exact Or.inr ⟨Err.nameInUse, by simp only [h, if_true]⟩
    · exact Or.inl ⟨by simp only [h, if_false], h⟩
  · exact Or.inr ⟨e, rfl⟩

theorem model_save_noFaults (c : Collection) (db : DB) :
    (modelDao noFaults).SaveCollection c db =
      if c.name ∈ names db then (some Err.nameInUse, db) else (none, db ++ [c]) :=
  rfl

theorem model_find_state (faults : Faults) (k : String) (db : DB) :
    ((modelDao faults).FindCollectionByNameOrId k db).2 = db := by
  simp only [modelDao]
  rcases faults (Op.find k) db with _ | e
  · rcases db.find? (matchesNameOrId k) with _ | c <;> rfl
  · rfl

theorem model_find_found (faults : Faults) (k : String) (db : DB) (c : Collection)
    (h : ((modelDao faults).FindCollectionByNameOrId k db).1.1 = some c) :
    c ∈ db ∧ matchesNameOrId k c = true := by
  revert h
  simp only [modelDao]
  rcases faults (Op.find k) db with _ | e
  · rcases hf : db.find? (matchesNameOrId k) with _ | c2
    · simp
    · intro h
      simp at h
      subst h
      exact ⟨List.mem_of_find?_eq_some hf, List.find?_some hf⟩
  · simp

theorem model_delete_state (faults : Faults) (c : Collection) (db : DB) :
    ((modelDao faults).DeleteCollection c db).2 = db ∨
    ((modelDao faults).DeleteCollection c db).2 = db.filter (fun x => decide (x ≠ c)) := by
  simp only [modelDao]
  rcases faults (Op.delete c) db with _ | e
  · by_cases h : c ∈ db
    · simp [h]
    · simp [h]
  · exact Or.inl rfl

/-- The forward closure on the reference backend: the run stops at the first save that
fails, with the collections saved before it added to the state, or all three saves
succeed. -/
theorem forward_model_cases (faults : Faults) (db : DB) :
    (∃ e, ((modelDao faults).SaveCollection collectionsCollection db).1 = some e ∧
      forward (modelDao faults) db = (some e, db) ∧
      forwardTrace (modelDao faults) db = [Event.save collectionsCollection (some e)]) ∨
    (∃ e, collectionsCollection.name ∉ names db ∧
      ((modelDao faults).SaveCollection cardsCollection
        (db ++ [collectionsCollection])).1 = some e ∧
      forward (modelDao faults) db = (some e, db ++ [collectionsCollection]) ∧
      forwardTrace (modelDao faults) db =
        [Event.save collectionsCollection none, Event.save cardsCollection (some e)]) ∨
    (∃ e, collectionsCollection.name ∉ names db ∧
      cardsCollection.name ∉ names (db ++ [collectionsCollection]) ∧
      ((modelDao faults).SaveCollection syncStatusCollection
        (db ++ [collectionsCollection, cardsCollection])).1 = some e ∧
      forward (modelDao faults) db = (some e, db ++ [collectionsCollection, cardsCollection]) ∧
      forwardTrace (modelDao faults) db =
        [Event.save collectionsCollection none, Event.save cardsCollection none,
          Event.save syncStatusCollection (some e)]) ∨
    (collectionsCollection.name ∉ names db ∧
      cardsCollection.name ∉ names (db ++ [collectionsCollection]) ∧
      syncStatusCollection.name ∉ names (db ++ [collectionsCollection, cardsCollection]) ∧
      forward (modelDao faults) db =
        (none, db ++ [collectionsCollection, cardsCollection, syncStatusCollection]) ∧
      forwardTrace (modelDao faults) db =
        [Event.save collectionsCollection none, Event.save cardsCollection none,
          Event.save syncStatusCollection none]) := by
  simp only [forwardTrace, forwardRun_eq, forward_eq, saveRun]
  rcases model_save_cases faults collectionsCollection db with ⟨h1, n1⟩ | ⟨e1, h1⟩
  · rcases model_save_cases faults cardsCollection (db ++ [collectionsCollection]) with
      ⟨h2, n2⟩ | ⟨e2, h2⟩
    · rw [List.append_assoc] at h2
      rcases model_save_cases faults syncStatusCollection
        (db ++ [collectionsCollection, cardsCollection]) with ⟨h3, n3⟩ | ⟨e3, h3⟩
      · rw [List.append_assoc] at h3
        right; right; right
        simp [h1, h2, h3, andThen, n1, n2, n3]
      · right; right; left
        exact ⟨e3, by simp [h1, h2, h3, andThen, n1, n2]⟩
    · right; left
      exact ⟨e2, by simp [h1, h2, andThen, n1]⟩
  · left
    exact ⟨e1, by simp [h1, andThen]⟩

theorem model_save_noFaults_fails (c : Collection) (db : DB) (e : Err)
    (h : ((modelDao noFaults).SaveCollection c db).1 = some e) : c.name ∈ names db := by
  rw [model_save_noFaults] at h
  by_cases hc : c.name ∈ names db
  · exact hc
  · simp [hc] at h

/-- C4 (as stated, refuted): on a state where `cards` is already live, the forward
closure returns an error and leaves a state that differs from the input state: the
collection `collections` has been added. -/
theorem forward_failure_is_partially_visible :
    (forward (modelDao noFaults) [legacy "cards_legacy_id" "cards"]).1 = some Err.nameInUse ∧
    (forward (modelDao noFaults) [legacy "cards_legacy_id" "cards"]).2 ≠
      [legacy "cards_legacy_id" "cards"] ∧
    (forward (modelDao noFaults) [legacy "cards_legacy_id" "cards"]).2 =
      [legacy "cards_legacy_id" "cards", collectionsCollection] := by
  decide


/-- C8: on the backend whose save fails exactly when the name is already live, the
forward closure returns an error if and only if one of `collections`, `cards`,
`sync_status` is live in the input state; when it does, the error is the one returned
by the save of the first descriptor, in creation order, whose name is live, the
descriptors before it have been added to the state, and no later save is issued. -/
theorem forward_fails_at_first_name_conflict (db : DB) :
    ((forward (modelDao noFaults) db).1 ≠ none ↔
      ∃ c ∈ [collectionsCollection, cardsCollection, syncStatusCollection],
        c.name ∈ names db) ∧
    ∀ e, (forward (modelDao noFaults) db).1 = some e →
      ∃ created failing later,
        [collectionsCollection, cardsCollection, syncStatusCollection] =
          created ++ failing :: later ∧
        (∀ c ∈ created, c.name ∉ names db) ∧
        failing.name ∈ names db ∧
        ((modelDao noFaults).SaveCollection failing (db ++ created)).1 = some e ∧
        (forward (modelDao noFaults) db).2 = db ++ created ∧
        forwardTrace (modelDao noFaults) db =
          created.map (fun c => Event.save c none) ++ [Event.save failing (some e)] := by
  have k1 : cardsCollection.name ≠ collectionsCollection.name := by decide
  have k2 : syncStatusCollection.name ≠ collectionsCollection.name := by decide
  have k3 : syncStatusCollection.name ≠ cardsCollection.name := by decide
  rcases forward_model_cases noFaults db with ⟨e1, hs, hf, ht⟩ | ⟨e1, n1, hs, hf, ht⟩ |
    ⟨e1, n1, n2, hs, hf, ht⟩ | ⟨n1, n2, n3, hf, _⟩
  · have hn := model_save_noFaults_fails _ _ _ hs
    refine ⟨by rw [hf]; simpa using Or.inl hn, ?_⟩
    intro e he
    rw [hf] at he
    simp at he
    subst he
    exact ⟨[], collectionsCollection, [cardsCollection, syncStatusCollection], rfl,
      by simp, hn, by simpa using hs, by simp [hf], by simp [ht]⟩
  · have hn := model_save_noFaults_fails _ _ _ hs
    simp only [names, List.map_append, List.mem_append, List.map_cons, List.map_nil,
      List.mem_singleton] at hn
    have hn2 : cardsCollection.name ∈ names db := by
      rcases hn with h | h
      · exact h
      · exact absurd h k1
    refine ⟨by rw [hf]; simpa using Or.inr (Or.inl hn2), ?_⟩
    intro e he
    rw [hf] at he
    simp at he
    subst he
    exact ⟨[collectionsCollection], cardsCollection, [syncStatusCollection], rfl,
      by simpa using n1, hn2, hs, by simp [hf], by simp [ht]⟩
  · have hn := model_save_noFaults_fails _ _ _ hs
    simp only [names, List.map_append, List.mem_append, List.map_cons, List.map_nil,
      List.mem_cons, List.mem_singleton, List.not_mem_nil, or_false] at hn n2
    have hn2 : syncStatusCollection.name ∈ names db := by
      rcases hn with h | h | h
      · exact h
      · exact absurd h k2
      · exact absurd h k3
    refine ⟨by rw [hf]; simpa using Or.inr (Or.inr hn2), ?_⟩
    intro e he
    rw [hf] at he
    simp at he
    subst he
    refine ⟨[collectionsCollection, cardsCollection], syncStatusCollection, [], rfl,
      ?_, hn2, hs, by simp [hf], by simp [ht]⟩
    intro c hc
    simp at hc
    rcases hc with rfl | rfl
    · exact n1
    · exact fun h => n2 (Or.inl h)
  · simp only [names, List.map_append, List.mem_append, List.map_cons, List.map_nil,
      List.mem_cons, List.mem_singleton, List.not_mem_nil, or_false] at n1 n2 n3
    refine ⟨?_, ?_⟩
    · rw [hf]
      simp only [ne_eq, not_true_eq_false, false_iff, not_exists, not_and]
      intro c hc
      simp at hc
      rcases hc with rfl | rfl | rfl
      · exact n1
      · exact fun h => n2 (Or.inl h)
      · exact fun h => n3 (Or.inl h)
    · intro e he
      rw [hf] at he
      simp at he

/-- C8 at a concrete state: `cards` is live, so the second save is the one that fails,
after `collections` has been created. -/
theorem forward_fails_at_first_name_conflict_witness :
    (forward (modelDao noFaults) [legacy "cards_legacy_id" "cards"]).1 = some Err.nameInUse ∧
    ∃ created failing later,
      [collectionsCollection, cardsCollection, syncStatusCollection] =
        created ++ failing :: later ∧
      (∀ c ∈ created, c.name ∉ names [legacy "cards_legacy_id" "cards"]) ∧
      failing.name ∈ names [legacy "cards_legacy_id" "cards"] ∧
      ((modelDao noFaults).SaveCollection failing
        ([legacy "cards_legacy_id" "cards"] ++ created)).1 = some Err.nameInUse ∧
      (forward (modelDao noFaults) [legacy "cards_legacy_id" "cards"]).2 =
        [legacy "cards_legacy_id" "cards"] ++ created ∧
      forwardTrace (modelDao noFaults) [legacy "cards_legacy_id" "cards"] =
        created.map (fun c => Event.save c none) ++
          [Event.save failing (some Err.nameInUse)] :=
  ⟨by decide,
    (forward_fails_at_first_name_conflict [legacy "cards_legacy_id" "cards"]).2
      Err.nameInUse (by decide)⟩

/-! ## Invariants along a run -/

/-- A property of the state that every save preserves holds after every save of a
forward run and in the state the run leaves. -/
theorem forward_inv {σ : Type} (dao : Dao σ) (P : σ → Prop)
    (hsave : ∀ c s, P s → P (dao.SaveCollection c s).2) (db : σ) (h : P db) :
    P (forward dao db).2 ∧ ∀ s ∈ forwardStates dao db, P s := by
  have p1 := hsave collectionsCollection db h
  have p2 := hsave cardsCollection _ p1
  have p3 := hsave syncStatusCollection _ p2
  simp only [forwardStates, forwardRun_eq, forward_eq, saveRun]
  rcases h1 : (dao.SaveCollection collectionsCollection db).1 with _ | e1
  · rw [andThen_none _ _ h1]
    rcases h2 : (dao.SaveCollection cardsCollection
        (dao.SaveCollection collectionsCollection db).2).1 with _ | e2
    · rw [andThen_none _ _ h2]
      rcases h3 : (dao.SaveCollection syncStatusCollection
          (dao.SaveCollection cardsCollection
            (dao.SaveCollection collectionsCollection db).2).2).1 with _ | e3
      · rw [andThen_none _ _ h3]
        simp [p1, p2, p3]
      · rw [andThen_some _ _ e3 h3]
        simp [p1, p2, p3]
    · rw [andThen_some _ _ e2 h2]
      simp [p1, p2]
  · rw [andThen_some _ _ e1 h1]
    simp [p1]

theorem dropStep_inv {σ : Type} (dao : Dao σ) (P : σ → Prop)
    (hfind : ∀ k s, P s → P (dao.FindCollectionByNameOrId k s).2)
    (hdel : ∀ c s, P s → P (dao.DeleteCollection c s).2) (k : String) (db : σ) (h : P db) :
    P (dropStep dao k db).2 ∧ ∀ s ∈ (dropRun dao k db).map Prod.snd, P s := by
  have p1 := hfind k db h
  have p2 := fun c => hdel c _ p1
  obtain ⟨sv, fd, dl⟩ := dao
  simp only [dropStep, dropRun] at *
  generalize fd k db = r at *
  rcases r with ⟨⟨_ | c, e⟩, db1⟩
  · simpa using p1
  · simp only at p1 p2
    simp [p1, p2 c]

/-- A property of the state that every lookup and every delete preserve holds after
every operation of a backward run and in the state the run leaves. -/
theorem backward_inv {σ : Type} (dao : Dao σ) (P : σ → Prop)
    (hfind : ∀ k s, P s → P (dao.FindCollectionByNameOrId k s).2)
    (hdel : ∀ c s, P s → P (dao.DeleteCollection c s).2) (db : σ) (h : P db) :
    P (backward dao db).2 ∧ ∀ s ∈ backwardStates dao db, P s := by
  obtain ⟨p1, q1⟩ := dropStep_inv dao P hfind hdel "sync_status" db h
  obtain ⟨p2, q2⟩ := dropStep_inv dao P hfind hdel "cards" _ p1
  obtain ⟨p3, q3⟩ := dropStep_inv dao P hfind hdel "collections" _ p2
  simp only [backwardStates, backwardRun_eq, backward_eq]
  rcases h1 : (dropStep dao "sync_status" db).1 with _ | e1
  · rw [andThen_none _ _ h1]
    rcases h2 : (dropStep dao "cards" (dropStep dao "sync_status" db).2).1 with _ | e2
    · rw [andThen_none _ _ h2]
      rcases h3 : (dropStep dao "collections"
          (dropStep dao "cards" (dropStep dao "sync_status" db).2).2).1 with _ | e3
      · rw [andThen_none _ _ h3]
        refine ⟨p3, ?_⟩
        intro s hs
        simp only [↓reduceIte, List.map_append, List.mem_append] at hs
        rcases hs with hs | hs | hs
        · exact q1 s hs
        · exact q2 s hs
        · exact q3 s hs
      · rw [andThen_some _ _ e3 h3]
        refine ⟨p3, ?_⟩
        intro s hs
        simp only [↓reduceIte, List.map_append, List.mem_append] at hs
        rcases hs with hs | hs | hs
        · exact q1 s hs
        · exact q2 s hs
        · exact q3 s hs
    · rw [andThen_some _ _ e2 h2]
      refine ⟨p2, ?_⟩
      intro s hs
      simp only [↓reduceIte, List.map_append, List.mem_append, reduceCtorEq,
        List.append_nil] at hs
      rcases hs with hs | hs
      · exact q1 s hs
      · exact q2 s hs
  · rw [andThen_some _ _ e1 h1]
    refine ⟨p1, ?_⟩
    intro s hs
    simp only [↓reduceIte, reduceCtorEq, List.append_nil] at hs
    exact q1 s hs

theorem model_save_nodup (faults : Faults) (c : Collection) (db : DB)
    (h : (names db).Nodup) : (names ((modelDao faults).SaveCollection c db).2).Nodup := by
  rcases model_save_cases faults c db with ⟨hs, hn⟩ | ⟨e, hs⟩
  · rw [hs]
    simp only [names, List.map_append, List.map_cons, List.map_nil] at *
    rw [List.nodup_append]
    refine ⟨h, by simp, ?_⟩
    intro a ha hb
    simp at hb
    subst hb
    exact hn ha
  · rw [hs]
    exact h

theorem model_delete_nodup (faults : Faults) (c : Collection) (db : DB)
    (h : (names db).Nodup) : (names ((modelDao faults).DeleteCollection c db).2).Nodup := by
  rcases model_delete_state faults c db with hs | hs
  · rw [hs]
    exact h
  · rw [hs]
    exact List.Nodup.sublist (List.Sublist.map _ (List.filter_sublist _)) h

/-- C7: name uniqueness is preserved by the step.  From a state whose live collections
have pairwise distinct names, the names are pairwise distinct after every save of the
forward closure and in the state it leaves, and after every operation of the backward
closure and in the state it leaves, whatever fails; the three names and the three ids
of the descriptors are pairwise distinct. -/
theorem step_preserves_name_uniqueness (faults : Faults) (db : DB)
    (h : (names db).Nodup) :
    (∀ s ∈ forwardStates (modelDao faults) db, (names s).Nodup) ∧
    (names (forward (modelDao faults) db).2).Nodup ∧
    (∀ s ∈ backwardStates (modelDao faults) db, (names s).Nodup) ∧
    (names (backward (modelDao faults) db).2).Nodup ∧
    [collectionsCollection.name, cardsCollection.name, syncStatusCollection.name].Nodup ∧
    [collectionsCollection.id, cardsCollection.id, syncStatusCollection.id].Nodup := by
  have hf := forward_inv (modelDao faults) (fun s => (names s).Nodup)
    (fun c s hs => model_save_nodup faults c s hs) db h
  have hb := backward_inv (modelDao faults) (fun s => (names s).Nodup)
    (fun k s hs => by rw [model_find_state]; exact hs)
    (fun c s hs => model_delete_nodup faults c s hs) db h
  exact ⟨hf.2, hf.1, hb.2, hb.1, by decide, by decide⟩

theorem step_preserves_name_uniqueness_witness :
    (names [legacy "decks_id" "decks", legacy "cards_legacy_id" "cards"]).Nodup ∧
    ((∀ s ∈ forwardStates (modelDao lookupFails)
        [legacy "decks_id" "decks", legacy "cards_legacy_id" "cards"], (names s).Nodup) ∧
    (names (forward (modelDao lookupFails)
        [legacy "decks_id" "decks", legacy "cards_legacy_id" "cards"]).2).Nodup ∧
    (∀ s ∈ backwardStates (modelDao lookupFails)
        [legacy "decks_id" "decks", legacy "cards_legacy_id" "cards"], (names s).Nodup) ∧
    (names (backward (modelDao lookupFails)
        [legacy "decks_id" "decks", legacy "cards_legacy_id" "cards"]).2).Nodup ∧
    [collectionsCollection.name, cardsCollection.name, syncStatusCollection.name].Nodup ∧
    [collectionsCollection.id, cardsCollection.id, syncStatusCollection.id].Nodup) :=
  ⟨by decide,
    step_preserves_name_uniqueness lookupFails
      [legacy "decks_id" "decks", legacy "cards_legacy_id" "cards"] (by decide)⟩

/-! ## What a failed forward run leaves -/

/-- The forward closure, save by save: the result and the state are those of the first
save that returns an error, or of the third save. -/
theorem forward_cases {σ : Type} (dao : Dao σ) (db : σ) :
    (∃ e, (dao.SaveCollection collectionsCollection db).1 = some e ∧
      forward dao db = (some e, (dao.SaveCollection collectionsCollection db).2)) ∨
    (∃ e, (dao.SaveCollection collectionsCollection db).1 = none ∧
      (dao.SaveCollection cardsCollection
        (dao.SaveCollection collectionsCollection db).2).1 = some e ∧
      forward dao db = (some e, (dao.SaveCollection cardsCollection
        (dao.SaveCollection collectionsCollection db).2).2)) ∨
    (∃ e, (dao.SaveCollection collectionsCollection db).1 = none ∧
      (dao.SaveCollection cardsCollection
        (dao.SaveCollection collectionsCollection db).2).1 = none ∧
      (dao.SaveCollection syncStatusCollection (dao.SaveCollection cardsCollection
        (dao.SaveCollection collectionsCollection db).2).2).1 = some e ∧
      forward dao db = (some e, (dao.SaveCollection syncStatusCollection
        (dao.SaveCollection cardsCollection
          (dao.SaveCollection collectionsCollection db).2).2).2)) ∨
    ((dao.SaveCollection collectionsCollection db).1 = none ∧
      (dao.SaveCollection cardsCollection
        (dao.SaveCollection collectionsCollection db).2).1 = none ∧
      (dao.SaveCollection syncStatusCollection (dao.SaveCollection cardsCollection
        (dao.SaveCollection collectionsCollection db).2).2).1 = none ∧
      forward dao db = (none, (dao.SaveCollection syncStatusCollection
        (dao.SaveCollection cardsCollection
          (dao.SaveCollection collectionsCollection db).2).2).2)) := by
  rw [forward_eq]
  rcases h1 : (dao.SaveCollection collectionsCollection db).1 with _ | e1
  · rw [andThen_none _ _ h1]
    rcases h2 : (dao.SaveCollection cardsCollection
        (dao.SaveCollection collectionsCollection db).2).1 with _ | e2
    · rw [andThen_none _ _ h2]
      rcases h3 : (dao.SaveCollection syncStatusCollection (dao.SaveCollection cardsCollection
          (dao.SaveCollection collectionsCollection db).2).2).1 with _ | e3
      · rw [andThen_none _ _ h3]
        exact Or.inr (Or.inr (Or.inr ⟨rfl, rfl, rfl, rfl⟩))
      · rw [andThen_some _ _ e3 h3]
        exact Or.inr (Or.inr (Or.inl ⟨e3, rfl, rfl, rfl, rfl⟩))
    · rw [andThen_some _ _ e2 h2]
      exact Or.inr (Or.inl ⟨e2, rfl, rfl, rfl⟩)
  · rw [andThen_some _ _ e1 h1]
    exact Or.inl ⟨e1, rfl, rfl⟩

/-- C4 (amended): what a failing forward run leaves, for every backend.  When the
forward closure returns an error, that error is the one returned by the save of one
of the three descriptors; the saves of the descriptors before it, in creation order,
were issued and returned no error; no save of a later descriptor and no other
operation is issued; and the state after the call is the state this last save left,
reached from the input state through the earlier saves: nothing that those saves did
is undone. -/
theorem forward_failure_keeps_earlier_saves {σ : Type} (dao : Dao σ) (db : σ) (e : Err)
    (h : (forward dao db).1 = some e) :
    ∃ created failing later,
      [collectionsCollection, cardsCollection, syncStatusCollection] =
        created ++ failing :: later ∧
      forwardTrace dao db =
        created.map (fun c => Event.save c none) ++ [Event.save failing (some e)] ∧
      (dao.SaveCollection failing (saveAll dao created db)).1 = some e ∧
      (forward dao db).2 = (dao.SaveCollection failing (saveAll dao created db)).2 := by
  rcases forward_cases dao db with ⟨e1, h1, hf⟩ | ⟨e1, h1, h2, hf⟩ | ⟨e1, h1, h2, h3, hf⟩ |
    ⟨_, _, _, hf⟩
  · rw [hf] at h
    simp at h
    subst h
    refine ⟨[], collectionsCollection, [cardsCollection, syncStatusCollection], rfl, ?_,
      h1, by rw [hf]; rfl⟩
    simp [forwardTrace, forwardRun_eq, saveRun, h1]
  · rw [hf] at h
    simp at h
    subst h
    refine ⟨[collectionsCollection], cardsCollection, [syncStatusCollection], rfl, ?_,
      h2, by rw [hf]; rfl⟩
    simp [forwardTrace, forwardRun_eq, saveRun, h1, h2]
  · rw [hf] at h
    simp at h
    subst h
    refine ⟨[collectionsCollection, cardsCollection], syncStatusCollection, [], rfl, ?_,
      h3, by rw [hf]; rfl⟩
    simp [forwardTrace, forwardRun_eq, saveRun, h1, h2, h3]
  · rw [hf] at h
    simp at h

/-- The amended C4 at a concrete run: `sync_status` is live, the third save fails, and
the state left is the input state with `collections` and `cards` added. -/
theorem forward_failure_keeps_earlier_saves_witness :
    (forward (modelDao noFaults) [legacy "decks_id" "sync_status"]).1 = some Err.nameInUse ∧
    (∃ created failing later,
      [collectionsCollection, cardsCollection, syncStatusCollection] =
        created ++ failing :: later ∧
      forwardTrace (modelDao noFaults) [legacy "decks_id" "sync_status"] =
        created.map (fun c => Event.save c none) ++
          [Event.save failing (some Err.nameInUse)] ∧
      ((modelDao noFaults).SaveCollection failing
        (saveAll (modelDao noFaults) created [legacy "decks_id" "sync_status"])).1 =
          some Err.nameInUse ∧
      (forward (modelDao noFaults) [legacy "decks_id" "sync_status"]).2 =
        ((modelDao noFaults).SaveCollection failing
          (saveAll (modelDao noFaults) created [legacy "decks_id" "sync_status"])).2) ∧
    (forward (modelDao noFaults) [legacy "decks_id" "sync_status"]).2 =
      [legacy "decks_id" "sync_status", collectionsCollection, cardsCollection] :=
  ⟨by decide,
    forward_failure_keeps_earlier_saves (modelDao noFaults) [legacy "decks_id" "sync_status"]
      Err.nameInUse (by decide),
    by decide⟩

/-! ## Order of the drops and tolerance of absent collections -/

theorem dropStep_cases {σ : Type} (dao : Dao σ) (k : String) (s : σ) :
    ((dao.FindCollectionByNameOrId k s).1.1 = none ∧
      dropStep dao k s = (none, (dao.FindCollectionByNameOrId k s).2)) ∨
    (∃ c, (dao.FindCollectionByNameOrId k s).1.1 = some c ∧
      dropStep dao k s = dao.DeleteCollection c (dao.FindCollectionByNameOrId k s).2) := by
  obtain ⟨sv, fd, dl⟩ := dao
  simp only [dropStep]
  generalize fd k s = r
  rcases r with ⟨⟨_ | c, e⟩, s1⟩
  · exact Or.inl ⟨rfl, rfl⟩
  · exact Or.inr ⟨c, rfl, rfl⟩

theorem not_matches_of_not_matchesDropped (x : Collection) (h : matchesDropped x = false)
    (k : String) (hk : k ∈ droppedKeys) : matchesNameOrId k x = false := by
  simp only [matchesDropped, List.any_eq_false] at h
  simpa using h k hk

theorem matchesDropped_of_matches (x : Collection) (k : String) (hk : k ∈ droppedKeys)
    (h : matchesNameOrId k x = true) : matchesDropped x = true := by
  simp only [matchesDropped, List.any_eq_true]
  exact ⟨k, hk, h⟩

/-- One block of the backward closure that returns no error, on a state where the
string matches at most one live collection, leaves no live collection matching it. -/
theorem dropStep_clears {σ : Type} (dao : Dao σ) (live : σ → List Collection)
    (hro : ReadOnlyLookup dao) (hs : SoundLookup dao live) (hc : CompleteLookup dao live)
    (hd : DeleteRemoves dao live) (k : String) (hk : k ∈ droppedKeys) (s : σ)
    (hok : (dropStep dao k s).1 = none)
    (huniq : ∀ a ∈ live s, ∀ b ∈ live s, matchesNameOrId k a = true →
      matchesNameOrId k b = true → a = b) :
    (∀ x ∈ live (dropStep dao k s).2, x ∈ live s) ∧
    (∀ x ∈ live (dropStep dao k s).2, matchesNameOrId k x = false) := by
  rcases dropStep_cases dao k s with ⟨hn, hds⟩ | ⟨c, hfc, hds⟩
  · rw [hds, hro k hk s]
    exact ⟨fun x hx => hx, hc k hk s hn⟩
  · rw [hds, hro k hk s] at hok ⊢
    obtain ⟨hcl, hcm⟩ := hs k hk s c hfc
    have hiff := hd c s (matchesDropped_of_matches c k hk hcm) hok
    refine ⟨fun x hx => ((hiff x).1 hx).1, ?_⟩
    intro x hx
    obtain ⟨hxl, hxc⟩ := (hiff x).1 hx
    by_contra hm
    simp only [Bool.not_eq_false] at hm
    exact hxc (huniq x hxl c hcl hm hcm)

/-- One block of the backward closure on a state where no live collection matches the
string does nothing. -/
theorem dropStep_idle {σ : Type} (dao : Dao σ) (live : σ → List Collection)
    (hro : ReadOnlyLookup dao) (hs : SoundLookup dao live) (k : String)
    (hk : k ∈ droppedKeys) (s : σ)
    (hno : ∀ x ∈ live s, matchesNameOrId k x = false) :
    (dao.FindCollectionByNameOrId k s).1.1 = none ∧ dropStep dao k s = (none, s) := by
  rcases dropStep_cases dao k s with ⟨hn, hds⟩ | ⟨c, hfc, _⟩
  · rw [hds, hro k hk s]
    exact ⟨hn, rfl⟩
  · obtain ⟨hcl, hcm⟩ := hs k hk s c hfc
    rw [hno c hcl] at hcm
    exact absurd hcm Bool.false_ne_true

/-- One block of the backward closure on a state where exactly the live collection `c`
matches the string returns no error and removes `c`, nothing else. -/
theorem dropStep_exact {σ : Type} (dao : Dao σ) (live : σ → List Collection)
    (hro : ReadOnlyLookup dao) (hs : SoundLookup dao live) (hc : CompleteLookup dao live)
    (hd : DeleteRemoves dao live) (hok : DeleteSucceeds dao live) (k : String)
    (hk : k ∈ droppedKeys) (s : σ)
    (c : Collection) (hcl : c ∈ live s) (hcm : matchesNameOrId k c = true)
    (honly : ∀ x ∈ live s, matchesNameOrId k x = true → x = c) :
    (dropStep dao k s).1 = none ∧
    ∀ x, x ∈ live (dropStep dao k s).2 ↔ (x ∈ live s ∧ x ≠ c) := by
  rcases dropStep_cases dao k s with ⟨hn, _⟩ | ⟨c2, hfc, hds⟩
  · have := hc k hk s hn c hcl
    rw [this] at hcm
    exact absurd hcm Bool.false_ne_true
  · obtain ⟨h2l, h2m⟩ := hs k hk s c2 hfc
    have h2 : c2 = c := honly c2 h2l h2m
    subst h2
    rw [hds, hro k hk s]
    have hmd := matchesDropped_of_matches c2 k hk hcm
    have hnone := hok c2 s hmd hcl
    exact ⟨hnone, hd c2 s hmd hnone⟩

/-- A backward run that returns no error is the three blocks one after the other. -/
theorem backward_ok_chain {σ : Type} (dao : Dao σ) (db : σ)
    (h : (backward dao db).1 = none) :
    (dropStep dao "sync_status" db).1 = none ∧
    (dropStep dao "cards" (dropStep dao "sync_status" db).2).1 = none ∧
    (dropStep dao "collections"
      (dropStep dao "cards" (dropStep dao "sync_status" db).2).2).1 = none ∧
    (backward dao db).2 =
      (dropStep dao "collections"
        (dropStep dao "cards" (dropStep dao "sync_status" db).2).2).2 := by
  rw [backward_eq] at h ⊢
  rcases h1 : (dropStep dao "sync_status" db).1 with _ | e1
  · rw [andThen_none _ _ h1] at h ⊢
    rcases h2 : (dropStep dao "cards" (dropStep dao "sync_status" db).2).1 with _ | e2
    · rw [andThen_none _ _ h2] at h ⊢
      rcases h3 : (dropStep dao "collections"
          (dropStep dao "cards" (dropStep dao "sync_status" db).2).2).1 with _ | e3
      · rw [andThen_none _ _ h3]
        exact ⟨rfl, rfl, rfl, rfl⟩
      · rw [andThen_some _ _ e3 h3] at h
        simp at h
    · rw [andThen_some _ _ e2 h2] at h
      simp at h
  · rw [andThen_some _ _ e1 h1] at h
    simp at h

/-- Three blocks that each return no error make a backward run that returns no error. -/
theorem backward_of_ok_chain {σ : Type} (dao : Dao σ) (db : σ)
    (h1 : (dropStep dao "sync_status" db).1 = none)
    (h2 : (dropStep dao "cards" (dropStep dao "sync_status" db).2).1 = none)
    (h3 : (dropStep dao "collections"
      (dropStep dao "cards" (dropStep dao "sync_status" db).2).2).1 = none) :
    backward dao db =
      (none, (dropStep dao "collections"
        (dropStep dao "cards" (dropStep dao "sync_status" db).2).2).2) := by
  rw [backward_eq, andThen_none _ _ h1, andThen_none _ _ h2, andThen_none _ _ h3]

theorem model_readOnly (faults : Faults) : ReadOnlyLookup (modelDao faults) :=
  fun k _ s => model_find_state faults k s

theorem model_sound (faults : Faults) : SoundLookup (modelDao faults) (fun s => s) :=
  fun k _ s c h => model_find_found faults k s c h

theorem model_complete : CompleteLookup (modelDao noFaults) (fun s => s) := by
  intro k _ s h c hc
  simp only [modelDao, noFaults] at h
  rcases hf : s.find? (matchesNameOrId k) with _ | c2
  · rw [List.find?_eq_none] at hf
    simpa using hf c hc
  · simp [hf] at h

theorem model_saveAdds (faults : Faults) : SaveAdds (modelDao faults) (fun s => s) := by
  intro c _ s h x
  rcases model_save_cases faults c s with ⟨hs, _⟩ | ⟨e, hs⟩
  · rw [hs]
    simp
  · rw [hs] at h
    simp at h

theorem model_deleteRemoves (faults : Faults) :
    DeleteRemoves (modelDao faults) (fun s => s) := by
  intro c s _ h x
  revert h
  simp only [modelDao]
  rcases faults (Op.delete c) s with _ | e
  · by_cases hc : c ∈ s
    · simp [hc]
    · simp [hc]
  · simp

theorem model_deleteSucceeds : DeleteSucceeds (modelDao noFaults) (fun s => s) := by
  intro c s _ hc
  simp [modelDao, noFaults, hc]

/-- C9 (as stated, refuted): with a collection whose id is `cards` live next to the
collection named `cards`, every delete succeeds, yet one backward run leaves `cards`
findable and a second run changes the state again. -/
theorem backward_not_idempotent :
    backward (modelDao noFaults) [legacy "cards" "decks", cardsCollection] =
      (none, [cardsCollection]) ∧
    ((modelDao noFaults).FindCollectionByNameOrId "cards" [cardsCollection]).1.1 =
      some cardsCollection ∧
    backward (modelDao noFaults) [cardsCollection] = (none, []) := by
  decide

/-- C9 (amended): idempotence of the backward closure.  Over every backend whose lookup
of each of the three strings leaves the state as it was, returns only a live
collection that matches the string (by id, or by name up to letter case) and returns
nil only when no live collection matches it, and whose delete of a collection
matching one of the three strings, when it returns no error, removes the collection
given and nothing else: on every state in which each of `sync_status`,
`cards`, `collections` matches at most one live collection and on which every delete
the run issues succeeds, the run returns no error, a second run returns no error and
leaves the state of the first, and in that state none of the three strings is found
by `FindCollectionByNameOrId`. -/
theorem backward_idempotent {σ : Type} (dao : Dao σ) (live : σ → List Collection)
    (hro : ReadOnlyLookup dao) (hs : SoundLookup dao live) (hc : CompleteLookup dao live)
    (hd : DeleteRemoves dao live) (db : σ) (huniq : UniqueMatches (live db))
    (hdel : ∀ ev ∈ backwardTrace dao db, ev.deleteOk = true) :
    (backward dao db).1 = none ∧
    backward dao (backward dao db).2 = (none, (backward dao db).2) ∧
    ∀ k ∈ droppedKeys,
      (dao.FindCollectionByNameOrId k (backward dao db).2).1.1 = none := by
  have hnone : (backward dao db).1 = none := by
    rcases backward_run dao db with ⟨_, _, _, _, _, _, hr, _⟩ | ⟨c, fe, e, _, ht⟩ |
      ⟨r1, e1, c, fe, e, _, ht⟩ | ⟨r1, e1, r2, e2, c, fe, e, _, ht⟩
    · exact hr
    · have := hdel (Event.delete c (some e)) (by rw [ht]; simp)
      simp [Event.deleteOk] at this
    · have := hdel (Event.delete c (some e)) (by rw [ht]; simp)
      simp [Event.deleteOk] at this
    · have := hdel (Event.delete c (some e)) (by rw [ht]; simp)
      simp [Event.deleteOk] at this
  obtain ⟨h1, h2, h3, hst⟩ := backward_ok_chain dao db hnone
  obtain ⟨sub1, clr1⟩ := dropStep_clears dao live hro hs hc hd "sync_status" (by decide) db h1
    (huniq "sync_status" (by decide))
  obtain ⟨sub2, clr2⟩ := dropStep_clears dao live hro hs hc hd "cards" (by decide) _ h2
    (fun a ha b hb => huniq "cards" (by decide) a (sub1 a ha) b (sub1 b hb))
  obtain ⟨sub3, clr3⟩ := dropStep_clears dao live hro hs hc hd "collections" (by decide) _ h3
    (fun a ha b hb => huniq "collections" (by decide) a (sub1 a (sub2 a ha))
      b (sub1 b (sub2 b hb)))
  have n1 : ∀ x ∈ live (backward dao db).2, matchesNameOrId "sync_status" x = false := by
    rw [hst]
    exact fun x hx => clr1 x (sub2 x (sub3 x hx))
  have n2 : ∀ x ∈ live (backward dao db).2, matchesNameOrId "cards" x = false := by
    rw [hst]
    exact fun x hx => clr2 x (sub3 x hx)
  have n3 : ∀ x ∈ live (backward dao db).2, matchesNameOrId "collections" x = false := by
    rw [hst]
    exact clr3
  obtain ⟨f1, i1⟩ := dropStep_idle dao live hro hs "sync_status" (by decide) _ n1
  obtain ⟨f2, i2⟩ := dropStep_idle dao live hro hs "cards" (by decide) _ n2
  obtain ⟨f3, i3⟩ := dropStep_idle dao live hro hs "collections" (by decide) _ n3
  refine ⟨hnone, ?_, ?_⟩
  · rw [backward_eq dao (backward dao db).2, i1]
    simp only [andThen]
    rw [i2]
    simp only [andThen]
    rw [i3]
  · intro k hk
    simp only [droppedKeys, List.mem_cons, List.mem_singleton, List.not_mem_nil,
      or_false] at hk
    rcases hk with rfl | rfl | rfl
    · exact f1
    · exact f2
    · exact f3

/-- The amended C9 at a concrete state: `cards` and `sync_status` are live next to an
unrelated collection; two runs leave what one run leaves. -/
theorem backward_idempotent_witness :
    UniqueMatches [legacy "decks_id" "decks", cardsCollection, syncStatusCollection] ∧
    (∀ ev ∈ backwardTrace (modelDao noFaults)
        [legacy "decks_id" "decks", cardsCollection, syncStatusCollection],
      ev.deleteOk = true) ∧
    ((backward (modelDao noFaults)
        [legacy "decks_id" "decks", cardsCollection, syncStatusCollection]).1 = none ∧
    backward (modelDao noFaults) (backward (modelDao noFaults)
        [legacy "decks_id" "decks", cardsCollection, syncStatusCollection]).2 =
      (none, (backward (modelDao noFaults)
        [legacy "decks_id" "decks", cardsCollection, syncStatusCollection]).2) ∧
    ∀ k ∈ droppedKeys,
      ((modelDao noFaults).FindCollectionByNameOrId k (backward (modelDao noFaults)
        [legacy "decks_id" "decks", cardsCollection, syncStatusCollection]).2).1.1 =
        none) ∧
    (backward (modelDao noFaults)
        [legacy "decks_id" "decks", cardsCollection, syncStatusCollection]).2 =
      [legacy "decks_id" "decks"] :=
  ⟨by decide, by decide,
    backward_idempotent (modelDao noFaults) (fun s => s) (model_readOnly noFaults)
      (model_sound noFaults) model_complete (model_deleteRemoves noFaults)
      [legacy "decks_id" "decks", cardsCollection, syncStatusCollection]
      (by decide) (by decide),
    by decide⟩

/-- C1 (as stated, refuted): from a state whose only collection has the id
`sync_status` (and another name), the forward closure succeeds, and the backward
closure run on the result returns no error but removes that collection and keeps the
new `sync_status`: the collection set is not the one before the step. -/
theorem backward_after_forward_not_identity :
    (forward (modelDao noFaults) [legacy "sync_status" "sync_log"]).1 = none ∧
    backward (modelDao noFaults)
        (forward (modelDao noFaults) [legacy "sync_status" "sync_log"]).2 =
      (none, [syncStatusCollection]) ∧
    names [syncStatusCollection] ≠ names [legacy "sync_status" "sync_log"] := by
  decide

/-- C1 (amended): round trip of the registered step.  Over every backend whose save
of each of the three descriptors, when it returns no error, adds the descriptor and
nothing else, whose lookup of each of the three strings leaves the state as it was,
returns only a live collection that matches the string (by id, or by name up to
letter case) and returns nil only when no live collection matches it, and whose delete
of a live collection matching one of the three strings returns no error and removes
that collection and nothing else: on every state in which no live collection matches
`sync_status`, `cards` or `collections` and on which the forward closure returns no
error, the backward closure run on the resulting state returns no error and leaves
exactly the collections that were live before the step, unchanged. -/
theorem backward_undoes_forward {σ : Type} (dao : Dao σ) (live : σ → List Collection)
    (hsave : SaveAdds dao live) (hro : ReadOnlyLookup dao) (hs : SoundLookup dao live)
    (hc : CompleteLookup dao live) (hd : DeleteRemoves dao live)
    (hok : DeleteSucceeds dao live) (db : σ)
    (hfwd : (forward dao db).1 = none)
    (hfree : ∀ c ∈ live db, matchesDropped c = false) :
    (backward dao (forward dao db).2).1 = none ∧
    ∀ x, x ∈ live (backward dao (forward dao db).2).2 ↔ x ∈ live db := by
  have free : ∀ k ∈ droppedKeys, ∀ x ∈ live db, matchesNameOrId k x = false :=
    fun k hk x hx => not_matches_of_not_matchesDropped x (hfree x hx) k hk
  have notC : collectionsCollection ∉ live db := fun h => by
    have := hfree _ h
    exact absurd this (by decide)
  have notK : cardsCollection ∉ live db := fun h => by
    have := hfree _ h
    exact absurd this (by decide)
  have notS : syncStatusCollection ∉ live db := fun h => by
    have := hfree _ h
    exact absurd this (by decide)
  rcases forward_cases dao db with ⟨e, _, hf⟩ | ⟨e, _, _, hf⟩ | ⟨e, _, _, _, hf⟩ |
    ⟨s1, s2, s3, hf⟩
  · rw [hf] at hfwd; simp at hfwd
  · rw [hf] at hfwd; simp at hfwd
  · rw [hf] at hfwd; simp at hfwd
  · have a1 := hsave collectionsCollection (by simp) _ s1
    have a2 := hsave cardsCollection (by simp) _ s2
    have a3 := hsave syncStatusCollection (by simp) _ s3
    rw [hf]
    simp only
    generalize (dao.SaveCollection syncStatusCollection (dao.SaveCollection cardsCollection
      (dao.SaveCollection collectionsCollection db).2).2).2 = t0 at a3 ⊢
    have m0 : ∀ x, x ∈ live t0 ↔
        (x ∈ live db ∨ x = collectionsCollection ∨ x = cardsCollection ∨
          x = syncStatusCollection) := by
      intro x
      rw [a3, a2, a1]
      tauto
    -- first block: `sync_status`
    obtain ⟨o1, r1⟩ := dropStep_exact dao live hro hs hc hd hok "sync_status"
      (by decide) t0
      syncStatusCollection ((m0 _).2 (Or.inr (Or.inr (Or.inr rfl)))) (by decide)
      (by
        intro x hx hm
        rcases (m0 x).1 hx with h | rfl | rfl | rfl
        · rw [free "sync_status" (by decide) x h] at hm
          exact absurd hm Bool.false_ne_true
        · exact absurd hm (by decide)
        · exact absurd hm (by decide)
        · rfl)
    -- second block: `cards`
    obtain ⟨o2, r2⟩ := dropStep_exact dao live hro hs hc hd hok "cards" (by decide)
      (dropStep dao "sync_status" t0).2 cardsCollection
      ((r1 _).2 ⟨(m0 _).2 (Or.inr (Or.inr (Or.inl rfl))), by decide⟩) (by decide)
      (by
        intro x hx hm
        rcases (m0 x).1 ((r1 x).1 hx).1 with h | rfl | rfl | rfl
        · rw [free "cards" (by decide) x h] at hm
          exact absurd hm Bool.false_ne_true
        · exact absurd hm (by decide)
        · rfl
        · exact absurd hm (by decide))
    -- third block: `collections`
    obtain ⟨o3, r3⟩ := dropStep_exact dao live hro hs hc hd hok "collections" (by decide)
      (dropStep dao "cards" (dropStep dao "sync_status" t0).2).2 collectionsCollection
      ((r2 _).2 ⟨(r1 _).2 ⟨(m0 _).2 (Or.inr (Or.inl rfl)), by decide⟩, by decide⟩)
      (by decide)
      (by
        intro x hx hm
        rcases (m0 x).1 ((r1 x).1 ((r2 x).1 hx).1).1 with h | rfl | rfl | rfl
        · rw [free "collections" (by decide) x h] at hm
          exact absurd hm Bool.false_ne_true
        · rfl
        · exact absurd hm (by decide)
        · exact absurd hm (by decide))
    rw [backward_of_ok_chain dao t0 o1 o2 o3]
    refine ⟨rfl, ?_⟩
    intro x
    simp only
    rw [r3, r2, r1, m0]
    constructor
    · rintro ⟨⟨⟨h | h | h | h, n3⟩, n2⟩, n1⟩
      · exact h
      · exact absurd h n1
      · exact absurd h n2
      · exact absurd h n3
    · intro h
      refine ⟨⟨⟨Or.inl h, ?_⟩, ?_⟩, ?_⟩
      · rintro rfl
        exact notS h
      · rintro rfl
        exact notK h
      · rintro rfl
        exact notC h

/-- The amended C1 at a concrete state: an unrelated collection is live, the step is
applied and reverted, and the state is the one before. -/
theorem backward_undoes_forward_witness :
    (forward (modelDao noFaults) [legacy "decks_id" "decks"]).1 = none ∧
    (∀ c ∈ [legacy "decks_id" "decks"], matchesDropped c = false) ∧
    ((backward (modelDao noFaults)
        (forward (modelDao noFaults) [legacy "decks_id" "decks"]).2).1 = none ∧
    ∀ x, x ∈ (backward (modelDao noFaults)
        (forward (modelDao noFaults) [legacy "decks_id" "decks"]).2).2 ↔
      x ∈ [legacy "decks_id" "decks"]) ∧
    (backward (modelDao noFaults)
        (forward (modelDao noFaults) [legacy "decks_id" "decks"]).2).2 =
      [legacy "decks_id" "decks"] :=
  ⟨by decide, by decide,
    backward_undoes_forward (modelDao noFaults) (fun s => s) (model_saveAdds noFaults)
      (model_readOnly noFaults) (model_sound noFaults) model_complete
      (model_deleteRemoves noFaults) model_deleteSucceeds [legacy "decks_id" "decks"]
      (by decide) (by decide),
    by decide⟩

/-! ## The descriptors -/

/-- C6: each of the three descriptors built by the forward closure (`collections` with
7 fields and 3 indexes, `cards` with 11 fields and 6 indexes, `sync_status` with 5
fields and 2 indexes) satisfies the descriptor invariant: its field names are pairwise
distinct, and each of its index definitions is declared on the descriptor's own
collection name and names only declared fields. -/
theorem descriptors_satisfy_invariant :
    (collectionsCollection.schema.length = 7 ∧ collectionsCollection.indexes.length = 3 ∧
      DescriptorInvariant collectionsCollection) ∧
    (cardsCollection.schema.length = 11 ∧ cardsCollection.indexes.length = 6 ∧
      DescriptorInvariant cardsCollection) ∧
    (syncStatusCollection.schema.length = 5 ∧ syncStatusCollection.indexes.length = 2 ∧
      DescriptorInvariant syncStatusCollection) := by
  decide

end Migrations
